import Mathlib

/-!
# Verification of the OD-33 asymptotic prime density estimator

Shallow embedding of `src/OD-33.py` (Python, `decimal.Decimal` arithmetic).

Modelling conventions:
* `Decimal` values are embedded as exact rationals `ℚ`.  The Python code runs
  with a context precision of at least 60 significant digits; the claims under
  study are about branch structure, clamping, aggregation and error behaviour,
  none of which depend on the rounding of individual operations, so the exact
  model is faithful for them.
* The natural-logarithm provider `lnD` (which delegates to `Decimal.ln`) is an
  abstract parameter `lnA : ℚ → ℚ`: every theorem is stated for an arbitrary
  provider, with explicit hypotheses (such as `0 < lnA x` for `2 ≤ x`) that the
  true natural logarithm satisfies on the relevant domain.
* Python raises exceptions for list indexing out of range (`IndexError`), for
  `Decimal` division of a non-zero value by zero (`DivisionByZero`) and for
  `0 / 0` (`InvalidOperation`); both division traps are enabled in the default
  decimal context.  Fallible functions therefore return `Except DecErr _`.
* Python list indexing `l[i]` with a negative `i` wraps around to
  `l[len(l) + i]` when `-i ≤ len(l)`; `pyIdx` models this exactly.
-/

/-- The error conditions the Python code can raise in the modelled fragment. -/
inductive DecErr : Type where
  | indexError : DecErr
  | divisionByZero : DecErr
  | invalidOperation : DecErr
deriving DecidableEq, Repr

/-- Rounding modes of the decimal context (only `ROUND_HALF_EVEN` is ever set,
but the type records that a mode is a genuine choice). -/
inductive PyRounding : Type where
  | halfEven : PyRounding
  | halfUp : PyRounding
deriving DecidableEq, Repr

/-- The process-wide decimal context: precision and rounding mode. -/
structure DecCtx : Type where
  prec : ℤ
  rounding : PyRounding
deriving DecidableEq, Repr

/-- `set_ctx` from the source: sets `getcontext().prec = max(60, int(prec))`
and `getcontext().rounding = ROUND_HALF_EVEN`. -/
def set_ctx (prec : ℤ) : DecCtx :=
  { prec := max 60 prec, rounding := PyRounding.halfEven }

/-- The frozen reference table `PI10_REF`: the 30 values of pi(10^k) for k = 0..29. -/
def PI10_REF : List ℤ :=
  [0, 4, 25, 168, 1229, 9592, 78498, 664579, 5761455, 50847534,
   455052511, 4118054813, 37607912018, 346065536839,
   3204941750802, 29844570422669, 279238341033925,
   2623557157654233, 24739954287740860,
   234057667276344607, 2220819602560918840,
   21127269486018731928, 201467286689315906290,
   1925320391606803968923, 18435599767349200867866,
   176846309399143769411680, 1699246750872437141327603,
   16352460426841680446427399, 157589269275973410412739598,
   1520698109714272166094258063]

/-- Python list indexing `l[i]` for an integer index: non-negative indices are
looked up directly, negative indices wrap to `l[len(l) + i]` when in range,
anything else is an `IndexError` (modelled as `none`). -/
def pyIdx (l : List ℤ) (i : ℤ) : Option ℤ :=
  if 0 ≤ i then l.get? i.toNat
  else if (-i).toNat ≤ l.length then l.get? (l.length - (-i).toNat)
  else none

/-- `Decimal("1e-30")`, the clamping threshold of `legendre_factor`. -/
def e30 : ℚ := 1 / 10 ^ 30

/-- The denominator actually used by `legendre_factor`: the source reassigns
`d = Decimal("1e-30") if d >= 0 else Decimal("-1e-30")` when `abs(d) < 1e-30`. -/
def clampDen (d : ℚ) : ℚ :=
  if |d| < e30 then (if 0 ≤ d then e30 else -e30) else d

/-- `legendre_factor(x, A, B, C) = L - B + C / d` with `L = ln x`,
`d = clampDen (L - A)`.  Total: the clamped denominator is never zero, so the
division cannot raise. -/
def legendre_factor (lnA : ℚ → ℚ) (x A B C : ℚ) : ℚ :=
  let L := lnA x
  let d := clampDen (L - A)
  L - B + C / d

/-- `pi_hat(x, A, B, C)` from the source.  For `x < 2` it returns `Decimal(0)`;
otherwise it divides `x` by `ln x` (when the Legendre factor is non-positive)
or by the Legendre factor itself.  In the fallback branch the divisor `ln x` is
not guarded, so a zero logarithm would raise `DivisionByZero` (here `x ≥ 2`, so
the dividend is non-zero). -/
def pi_hat (lnA : ℚ → ℚ) (x A B C : ℚ) : Except DecErr ℚ :=
  if x < 2 then Except.ok 0
  else
    let L := lnA x
    let Lx := legendre_factor lnA x A B C
    if Lx ≤ 0 then
      if L = 0 then Except.error DecErr.divisionByZero else Except.ok (x / L)
    else Except.ok (x / Lx)

/-- The loop state of `metrics`: running sum `s`, running maximum `max_abs`,
its position `k_of_max`, and the iteration count `n` (a `Decimal` in the
source). -/
structure MState : Type where
  s : ℚ
  max_abs : ℚ
  k_of_max : ℤ
  n : ℚ
deriving DecidableEq, Repr

/-- One iteration of the `metrics` loop at exponent `k`: look up
`PI10_REF[k]`, evaluate the estimator at `x = 10^k`, form
`rel_pct = (est - true) / true * 100`, and update sum / count / maximum.
A failed lookup raises `IndexError`; a zero reference value makes the division
raise (`InvalidOperation` for `0/0`, `DivisionByZero` otherwise). -/
def mStep (lnA : ℚ → ℚ) (A B C : ℚ) (st : MState) (k : ℤ) : Except DecErr MState :=
  let x : ℚ := (10 : ℚ) ^ k
  match pyIdx PI10_REF k with
  | none => Except.error DecErr.indexError
  | some t =>
    match pi_hat lnA x A B C with
    | Except.error e => Except.error e
    | Except.ok est =>
      let tru : ℚ := (t : ℚ)
      if tru = 0 then
        Except.error (if est = 0 then DecErr.invalidOperation else DecErr.divisionByZero)
      else
        let rel_pct := (est - tru) / tru * 100
        let a := |rel_pct|
        Except.ok
          { s := st.s + a
            max_abs := if st.max_abs < a then a else st.max_abs
            k_of_max := if st.max_abs < a then k else st.k_of_max
            n := st.n + 1 }

/-- The `for k in range(k_min, k_max + 1)` loop of `metrics`, threading the
state through `mStep` and propagating the first raised error. -/
def mLoop (lnA : ℚ → ℚ) (A B C : ℚ) (st : MState) : List ℤ → Except DecErr MState
  | [] => Except.ok st
  | k :: ks =>
    match mStep lnA A B C st k with
    | Except.error e => Except.error e
    | Except.ok st1 => mLoop lnA A B C st1 ks

/-- The integer interval `[lo, lo + n)` as a list, mirroring Python's
`range` over a count. -/
def intRangeAux (lo : ℤ) : ℕ → List ℤ
  | 0 => []
  | n + 1 => lo :: intRangeAux (lo + 1) n

/-- `range(lo, hi + 1)`: the integers from `lo` to `hi` inclusive, empty when
`lo > hi`. -/
def intRange (lo hi : ℤ) : List ℤ :=
  intRangeAux lo (hi + 1 - lo).toNat

/-- `metrics(A, B, C, k_min, k_max)` from the source: run the loop from the
initial state `(s, max_abs, k_of_max, n) = (0, 0, k_min, 0)` and return
`(s / n, max_abs, k_of_max)`.  An empty range makes the final division `0 / 0`,
which raises `InvalidOperation` in the default decimal context. -/
def metrics (lnA : ℚ → ℚ) (A B C : ℚ) (k_min k_max : ℤ) :
    Except DecErr (ℚ × ℚ × ℤ) :=
  match mLoop lnA A B C ⟨0, 0, k_min, 0⟩ (intRange k_min k_max) with
  | Except.error e => Except.error e
  | Except.ok st =>
    if st.n = 0 then Except.error DecErr.invalidOperation
    else Except.ok (st.s / st.n, st.max_abs, st.k_of_max)

/-- The frozen parameter `A_33 = Decimal("4.576944500732421875")`. -/
def A_33 : ℚ := 4576944500732421875 / 10 ^ 18

/-- The frozen parameter `B_33 = Decimal("1.07654")`. -/
def B_33 : ℚ := 107654 / 10 ^ 5

/-- The frozen parameter `C_33 = Decimal("0.26067")`. -/
def C_33 : ℚ := 26067 / 10 ^ 5

/-! ## Specification-side views of the loop body -/

/-- The reference value `PI10_REF[k]` as a rational (0 if the lookup fails;
only used where the lookup is known to succeed). -/
def refQ (k : ℤ) : ℚ :=
  match pyIdx PI10_REF k with
  | some t => (t : ℚ)
  | none => 0

/-- The value `pi_hat` returns when it does not raise, as a pure function. -/
def piHatVal (lnA : ℚ → ℚ) (x A B C : ℚ) : ℚ :=
  if x < 2 then 0
  else if legendre_factor lnA x A B C ≤ 0 then x / lnA x
  else x / legendre_factor lnA x A B C

/-- The per-point relative error percentage
`(pi_hat(10^k) - PI10_REF[k]) / PI10_REF[k] * 100`. -/
def relPct (lnA : ℚ → ℚ) (A B C : ℚ) (k : ℤ) : ℚ :=
  (piHatVal lnA ((10 : ℚ) ^ k) A B C - refQ k) / refQ k * 100

/-- The absolute relative error percentage at exponent `k`. -/
def absRel (lnA : ℚ → ℚ) (A B C : ℚ) (k : ℤ) : ℚ :=
  |relPct lnA A B C k|

/-- The pure loop body: what `mStep` does to the state when it does not
raise, parametrised by the per-point value `f k = |rel_pct at k|`. -/
def mStepP (f : ℤ → ℚ) (st : MState) (k : ℤ) : MState :=
  { s := st.s + f k
    max_abs := if st.max_abs < f k then f k else st.max_abs
    k_of_max := if st.max_abs < f k then k else st.k_of_max
    n := st.n + 1 }

/-- The maximum-tracking part of the loop in isolation: starting from a
current pair `(m, km)`, scan the list and replace the pair only on strict
increase. -/
def maxLoop (f : ℤ → ℚ) : List ℤ → ℚ × ℤ → ℚ × ℤ
  | [], p => p
  | k :: ks, (m, km) => maxLoop f ks (if m < f k then (f k, k) else (m, km))

/-- A trivially constant logarithm provider, used to instantiate theorems at
concrete inputs. -/
def lnOne : ℚ → ℚ := fun _ => 1

/-! ## Basic facts about the embedded definitions -/

/-- Claim C9: `set_ctx` establishes precision `max 60 p` with round-half-even
rounding and never leaves the precision below 60. -/
theorem set_ctx_spec (p : ℤ) :
    (set_ctx p).prec = max 60 p ∧
      (set_ctx p).rounding = PyRounding.halfEven ∧
      60 ≤ (set_ctx p).prec :=
  ⟨rfl, rfl, le_max_left 60 p⟩

theorem e30_pos : 0 < e30 := by norm_num [e30]

theorem clampDen_abs (d : ℚ) : e30 ≤ |clampDen d| := by
  unfold clampDen
  by_cases h : |d| < e30
  · rw [if_pos h]
    by_cases h0 : 0 ≤ d
    · rw [if_pos h0, abs_of_pos e30_pos]
    · rw [if_neg h0, abs_neg, abs_of_pos e30_pos]
  · rw [if_neg h]
    exact le_of_not_lt h

/-- Claim C3: `legendre_factor` is total and equals `ln x - B + C / d1` where
the divisor `d1` is the original denominator `ln x - A` clamped away from zero
with its sign preserved; the divisor's magnitude is never below `1e-30`. -/
theorem legendre_factor_clamp (lnA : ℚ → ℚ) (x A B C : ℚ) (_hx : 0 < x) :
    legendre_factor lnA x A B C = lnA x - B + C / clampDen (lnA x - A) ∧
      e30 ≤ |clampDen (lnA x - A)| ∧
      (e30 ≤ |lnA x - A| → clampDen (lnA x - A) = lnA x - A) ∧
      (|lnA x - A| < e30 → 0 ≤ lnA x - A → clampDen (lnA x - A) = e30) ∧
      (|lnA x - A| < e30 → lnA x - A < 0 → clampDen (lnA x - A) = -e30) := by
  refine ⟨rfl, clampDen_abs _, ?_, ?_, ?_⟩
  · intro h
    unfold clampDen
    rw [if_neg (not_lt.mpr h)]
  · intro h h0
    unfold clampDen
    rw [if_pos h, if_pos h0]
  · intro h h0
    unfold clampDen
    rw [if_pos h, if_neg (not_le.mpr h0)]

/-- Witness for C3 at `x = 3`, `A = 1`, `B = 0`, `C = 0`, constant log. -/
theorem legendre_factor_clamp_witness :
    legendre_factor lnOne 3 1 0 0 = lnOne 3 - 0 + 0 / clampDen (lnOne 3 - 1) ∧
      e30 ≤ |clampDen (lnOne 3 - 1)| ∧
      (e30 ≤ |lnOne 3 - 1| → clampDen (lnOne 3 - 1) = lnOne 3 - 1) ∧
      (|lnOne 3 - 1| < e30 → 0 ≤ lnOne 3 - 1 → clampDen (lnOne 3 - 1) = e30) ∧
      (|lnOne 3 - 1| < e30 → lnOne 3 - 1 < 0 → clampDen (lnOne 3 - 1) = -e30) :=
  legendre_factor_clamp lnOne 3 1 0 0 (by norm_num)

/-- Claim C1: the three-way branch structure of `pi_hat`.  The hypothesis
`x < 2 ∨ lnA x ≠ 0` is satisfied by the true natural logarithm everywhere
(`ln x ≥ ln 2 > 0` for `x ≥ 2`); it rules out the raising division `x / 0`
in the fallback branch, which no spec sentence covers because it cannot be
reached with the real logarithm. -/
theorem pi_hat_branches (lnA : ℚ → ℚ) (x A B C : ℚ)
    (h : x < 2 ∨ lnA x ≠ 0) :
    pi_hat lnA x A B C =
      if x < 2 then Except.ok 0
      else if legendre_factor lnA x A B C ≤ 0 then Except.ok (x / lnA x)
      else Except.ok (x / legendre_factor lnA x A B C) := by
  unfold pi_hat
  by_cases h2 : x < 2
  · simp [h2]
  · have hne : lnA x ≠ 0 := h.resolve_left h2
    by_cases h3 : legendre_factor lnA x A B C ≤ 0
    · simp [h2, h3, hne]
    · simp [h2, h3]

/-- Witness for C1 at `x = 3` with the constant log provider. -/
theorem pi_hat_branches_witness :
    pi_hat lnOne 3 1 1 1 =
      if (3 : ℚ) < 2 then Except.ok 0
      else if legendre_factor lnOne 3 1 1 1 ≤ 0 then Except.ok ((3 : ℚ) / lnOne 3)
      else Except.ok ((3 : ℚ) / legendre_factor lnOne 3 1 1 1) :=
  pi_hat_branches lnOne 3 1 1 1 (Or.inr one_ne_zero)

/-- Claim C2: for `x ≥ 2` (and a log provider that is positive there, as the
real logarithm is), `pi_hat` returns a value and that value is non-negative. -/
theorem pi_hat_nonneg (lnA : ℚ → ℚ) (x A B C : ℚ)
    (h2 : 2 ≤ x) (hL : 0 < lnA x) :
    ∃ r : ℚ, pi_hat lnA x A B C = Except.ok r ∧ 0 ≤ r := by
  have hx2 : ¬ x < 2 := not_lt.mpr h2
  have hx0 : 0 ≤ x := le_trans (by norm_num) h2
  unfold pi_hat
  by_cases h3 : legendre_factor lnA x A B C ≤ 0
  · refine ⟨x / lnA x, ?_, div_nonneg hx0 (le_of_lt hL)⟩
    simp [hx2, h3, ne_of_gt hL]
  · refine ⟨x / legendre_factor lnA x A B C, ?_, ?_⟩
    · simp [hx2, h3]
    · exact div_nonneg hx0 (le_of_lt (not_le.mp h3))

/-- Witness for C2 at `x = 2`. -/
theorem pi_hat_nonneg_witness :
    ∃ r : ℚ, pi_hat lnOne 2 0 0 0 = Except.ok r ∧ 0 ≤ r :=
  pi_hat_nonneg lnOne 2 0 0 0 (le_refl 2) one_pos

/-! ## Concrete evaluations exhibiting the divergences -/

/-- Counterexample for C4: the range `[0, 0]` consists of exponents that all
have reference entries (`PI10_REF[0] = 0`), yet `metrics` raises
`InvalidOperation` (the relative error would be `0 / 0`) instead of returning
a mean and a maximum. -/
theorem metrics_zero_k_raises :
    metrics lnOne 0 0 0 0 0 = Except.error DecErr.invalidOperation := by rfl

/-- Counterexample for C8: on the empty range `k_min = 3 > 2 = k_max`,
`metrics` divides `0 / 0` when forming the mean and raises
`InvalidOperation` rather than returning a result. -/
theorem metrics_empty_range_raises :
    metrics lnOne 0 0 0 3 2 = Except.error DecErr.invalidOperation := by rfl

/-- Evidence for C7: at `k_min = k_max = -1` (an exponent with no reference
entry) `metrics` does not raise: Python's negative indexing wraps
`PI10_REF[-1]` to entry 29 and the call returns `(100, 100, -1)`. -/
theorem metrics_negative_k_wraps :
    metrics lnOne A_33 B_33 C_33 (-1) (-1) = Except.ok (100, 100, -1) := by
  norm_num [metrics, mLoop, mStep, pi_hat, pyIdx, intRange, intRangeAux, PI10_REF,
    A_33, B_33, C_33, lnOne]

/-! ## The integer range -/

theorem mem_intRangeAux : ∀ (n : ℕ) (lo k : ℤ),
    k ∈ intRangeAux lo n ↔ lo ≤ k ∧ k < lo + n := by
  intro n
  induction n with
  | zero =>
    intro lo k
    simp only [intRangeAux, List.not_mem_nil, false_iff]
    omega
  | succ m ih =>
    intro lo k
    simp only [intRangeAux, List.mem_cons, ih (lo + 1) k]
    omega

theorem mem_intRange {lo hi k : ℤ} :
    k ∈ intRange lo hi ↔ lo ≤ k ∧ k ≤ hi := by
  unfold intRange
  rw [mem_intRangeAux]
  omega

theorem pairwise_intRangeAux : ∀ (n : ℕ) (lo : ℤ),
    (intRangeAux lo n).Pairwise (· < ·) := by
  intro n
  induction n with
  | zero => intro lo; exact List.Pairwise.nil
  | succ m ih =>
    intro lo
    refine List.Pairwise.cons ?_ (ih (lo + 1))
    intro k hk
    have := (mem_intRangeAux m (lo + 1) k).mp hk
    omega

theorem pairwise_intRange (lo hi : ℤ) : (intRange lo hi).Pairwise (· < ·) :=
  pairwise_intRangeAux _ _

theorem intRangeAux_append : ∀ (m n : ℕ) (lo : ℤ),
    intRangeAux lo (m + n) = intRangeAux lo m ++ intRangeAux (lo + m) n := by
  intro m
  induction m with
  | zero =>
    intro n lo
    simp [intRangeAux]
  | succ p ih =>
    intro n lo
    have harith : p + 1 + n = (p + n) + 1 := by omega
    rw [harith]
    simp only [intRangeAux, List.cons_append, ih n (lo + 1)]
    have : lo + 1 + (p : ℤ) = lo + ((p : ℤ) + 1) := by ring
    rw [this]
    push_cast
    ring_nf

theorem intRange_split (lo mid hi : ℤ) (h1 : lo ≤ mid + 1) (h2 : mid ≤ hi) :
    intRange lo hi = intRange lo mid ++ intRange (mid + 1) hi := by
  unfold intRange
  have hsum : (hi + 1 - lo).toNat = (mid + 1 - lo).toNat + (hi + 1 - (mid + 1)).toNat := by
    omega
  rw [hsum, intRangeAux_append]
  have hstart : lo + ((mid + 1 - lo).toNat : ℤ) = mid + 1 := by omega
  rw [hstart]

theorem intRange_cons (lo hi : ℤ) (h : lo ≤ hi) :
    intRange lo hi = lo :: intRange (lo + 1) hi := by
  unfold intRange
  have hsum : (hi + 1 - lo).toNat = (hi + 1 - (lo + 1)).toNat + 1 := by omega
  rw [hsum]
  rfl

/-! ## The reference table -/

theorem PI10_REF_length : PI10_REF.length = 30 := rfl

theorem table_entry_pos : ∀ n : ℕ, n < 30 → 1 ≤ n → 0 < (PI10_REF.get? n).getD 0 := by
  decide

theorem pyIdx_pos_of_k (k : ℤ) (hk1 : 1 ≤ k) (hk2 : k ≤ 29) :
    ∃ t : ℤ, pyIdx PI10_REF k = some t ∧ 0 < t := by
  have h0 : (0 : ℤ) ≤ k := by omega
  have hpy : pyIdx PI10_REF k = PI10_REF.get? k.toNat := by
    unfold pyIdx
    rw [if_pos h0]
  have hcore := table_entry_pos k.toNat (by omega) (by omega)
  cases hget : PI10_REF.get? k.toNat with
  | none => rw [hget] at hcore; exact absurd hcore (by norm_num)
  | some t =>
    rw [hget] at hcore
    exact ⟨t, by rw [hpy, hget], hcore⟩

theorem pyIdx_none_of_ge (k : ℤ) (hk : 30 ≤ k) : pyIdx PI10_REF k = none := by
  unfold pyIdx
  rw [if_pos (by omega : (0 : ℤ) ≤ k)]
  rw [List.get?_eq_none]
  rw [PI10_REF_length]
  omega

/-! ## The successful loop body -/

theorem two_le_ten_zpow {k : ℤ} (hk : 1 ≤ k) : 2 ≤ (10 : ℚ) ^ k := by
  have h0 : (0 : ℤ) ≤ k := by omega
  rw [← Int.toNat_of_nonneg h0, zpow_natCast]
  have h1 : 1 ≤ k.toNat := by omega
  calc (2 : ℚ) ≤ 10 ^ 1 := by norm_num
  _ ≤ 10 ^ k.toNat := by
    exact pow_le_pow_right₀ (by norm_num) h1

theorem pi_hat_ok (lnA : ℚ → ℚ) (x A B C : ℚ) (hL : lnA x ≠ 0) :
    pi_hat lnA x A B C = Except.ok (piHatVal lnA x A B C) := by
  unfold pi_hat piHatVal
  by_cases h2 : x < 2
  · simp [h2]
  · by_cases h3 : legendre_factor lnA x A B C ≤ 0
    · simp [h2, h3, hL]
    · simp [h2, h3]

theorem mStep_ok (lnA : ℚ → ℚ) (A B C : ℚ) (st : MState) (k : ℤ)
    (hk1 : 1 ≤ k) (hk2 : k ≤ 29) (hln : lnA ((10 : ℚ) ^ k) ≠ 0) :
    mStep lnA A B C st k = Except.ok (mStepP (absRel lnA A B C) st k) := by
  obtain ⟨t, hpy, htpos⟩ := pyIdx_pos_of_k k hk1 hk2
  have href : refQ k = (t : ℚ) := by
    unfold refQ
    rw [hpy]
  have htne : ((t : ℚ)) ≠ 0 := by
    have : (0 : ℚ) < (t : ℚ) := by exact_mod_cast htpos
    exact ne_of_gt this
  unfold mStep
  simp only [hpy]
  rw [pi_hat_ok lnA ((10 : ℚ) ^ k) A B C hln]
  simp only []
  rw [if_neg htne]
  unfold mStepP absRel relPct
  rw [href]

theorem mLoop_ok (lnA : ℚ → ℚ) (A B C : ℚ) :
    ∀ (l : List ℤ) (st : MState),
      (∀ k ∈ l, 1 ≤ k ∧ k ≤ 29 ∧ lnA ((10 : ℚ) ^ k) ≠ 0) →
      mLoop lnA A B C st l = Except.ok (l.foldl (mStepP (absRel lnA A B C)) st) := by
  intro l
  induction l with
  | nil => intro st _; rfl
  | cons k ks ih =>
    intro st h
    have hk := h k (List.mem_cons_self k ks)
    simp only [mLoop, mStep_ok lnA A B C st k hk.1 hk.2.1 hk.2.2, List.foldl_cons]
    exact ih _ (fun j hj => h j (List.mem_cons_of_mem _ hj))

/-! ## The pure loop: sum, count and maximum -/

theorem foldl_mStepP_s (f : ℤ → ℚ) :
    ∀ (l : List ℤ) (st : MState),
      (l.foldl (mStepP f) st).s = st.s + (l.map f).sum := by
  intro l
  induction l with
  | nil => intro st; simp
  | cons k ks ih =>
    intro st
    simp only [List.foldl_cons, List.map_cons, List.sum_cons, ih]
    show (mStepP f st k).s + (ks.map f).sum = st.s + (f k + (ks.map f).sum)
    unfold mStepP
    ring

theorem foldl_mStepP_n (f : ℤ → ℚ) :
    ∀ (l : List ℤ) (st : MState),
      (l.foldl (mStepP f) st).n = st.n + (l.length : ℚ) := by
  intro l
  induction l with
  | nil => intro st; simp
  | cons k ks ih =>
    intro st
    simp only [List.foldl_cons, List.length_cons, ih]
    show (mStepP f st k).n + (ks.length : ℚ) = st.n + ((ks.length + 1 : ℕ) : ℚ)
    unfold mStepP
    push_cast
    ring

theorem foldl_mStepP_max (f : ℤ → ℚ) :
    ∀ (l : List ℤ) (st : MState),
      ((l.foldl (mStepP f) st).max_abs, (l.foldl (mStepP f) st).k_of_max) =
        maxLoop f l (st.max_abs, st.k_of_max) := by
  intro l
  induction l with
  | nil => intro st; rfl
  | cons k ks ih =>
    intro st
    simp only [List.foldl_cons, maxLoop, ih]
    by_cases hc : st.max_abs < f k
    · simp [mStepP, hc]
    · simp [mStepP, hc]

theorem maxLoop_fst (f : ℤ → ℚ) :
    ∀ (l : List ℤ) (m : ℚ) (km : ℤ),
      (maxLoop f l (m, km)).1 = (l.map f).foldl max m := by
  intro l
  induction l with
  | nil => intro m km; rfl
  | cons k ks ih =>
    intro m km
    simp only [maxLoop, List.map_cons, List.foldl_cons]
    by_cases hc : m < f k
    · rw [if_pos hc, ih, max_eq_right (le_of_lt hc)]
    · rw [if_neg hc, ih, max_eq_left (not_lt.mp hc)]

theorem le_foldl_max :
    ∀ (l : List ℚ) (m : ℚ), m ≤ l.foldl max m ∧ ∀ a ∈ l, a ≤ l.foldl max m := by
  intro l
  induction l with
  | nil => intro m; exact ⟨le_refl m, by simp⟩
  | cons b bs ih =>
    intro m
    constructor
    · exact le_trans (le_max_left m b) (ih (max m b)).1
    · intro a ha
      rcases List.mem_cons.mp ha with rfl | ha1
      · exact le_trans (le_max_right m a) (ih (max m a)).1
      · exact (ih (max m b)).2 a ha1

theorem maxLoop_snd_spec (f : ℤ → ℚ) :
    ∀ (l : List ℤ) (m : ℚ) (km : ℤ), l.Pairwise (· < ·) →
      ((maxLoop f l (m, km)).2 = km ∧ (maxLoop f l (m, km)).1 = m ∧
          ∀ k ∈ l, f k ≤ m) ∨
      ((maxLoop f l (m, km)).2 ∈ l ∧
        f (maxLoop f l (m, km)).2 = (maxLoop f l (m, km)).1 ∧
        m < (maxLoop f l (m, km)).1 ∧
        ∀ k ∈ l, k < (maxLoop f l (m, km)).2 → f k < (maxLoop f l (m, km)).1) := by
  intro l
  induction l with
  | nil =>
    intro m km _
    left
    exact ⟨rfl, rfl, by simp⟩
  | cons k ks ih =>
    intro m km hp
    obtain ⟨hhead, hp1⟩ := List.pairwise_cons.mp hp
    by_cases hc : m < f k
    · have heq : maxLoop f (k :: ks) (m, km) = maxLoop f ks (f k, k) := by
        simp [maxLoop, hc]
      rw [heq]
      rcases ih (f k) k hp1 with ⟨h1, h2, h3⟩ | ⟨h1, h2, h3, h4⟩
      · right
        refine ⟨?_, ?_, ?_, ?_⟩
        · rw [h1]; exact List.mem_cons_self _ _
        · rw [h1, h2]
        · rw [h2]; exact hc
        · intro j hj hjlt
          rw [h1] at hjlt
          rcases List.mem_cons.mp hj with rfl | hj1
          · exact absurd hjlt (lt_irrefl _)
          · exact absurd hjlt (not_lt.mpr (le_of_lt (hhead j hj1)))
      · right
        refine ⟨List.mem_cons_of_mem _ h1, h2, lt_trans hc h3, ?_⟩
        intro j hj hjlt
        rcases List.mem_cons.mp hj with rfl | hj1
        · exact h3
        · exact h4 j hj1 hjlt
    · have heq : maxLoop f (k :: ks) (m, km) = maxLoop f ks (m, km) := by
        simp [maxLoop, hc]
      rw [heq]
      rcases ih m km hp1 with ⟨h1, h2, h3⟩ | ⟨h1, h2, h3, h4⟩
      · left
        refine ⟨h1, h2, ?_⟩
        intro j hj
        rcases List.mem_cons.mp hj with rfl | hj1
        · exact not_lt.mp hc
        · exact h3 j hj1
      · right
        refine ⟨List.mem_cons_of_mem _ h1, h2, h3, ?_⟩
        intro j hj hjlt
        rcases List.mem_cons.mp hj with rfl | hj1
        · exact lt_of_le_of_lt (not_lt.mp hc) h3
        · exact h4 j hj1 hjlt

/-! ## Running `metrics` to completion -/

theorem metrics_eq_of_mLoop_ok (lnA : ℚ → ℚ) (A B C : ℚ) (k_min k_max : ℤ)
    (st : MState)
    (h : mLoop lnA A B C ⟨0, 0, k_min, 0⟩ (intRange k_min k_max) = Except.ok st) :
    metrics lnA A B C k_min k_max =
      if st.n = 0 then Except.error DecErr.invalidOperation
      else Except.ok (st.s / st.n, st.max_abs, st.k_of_max) := by
  unfold metrics
  rw [h]

theorem metrics_eq_of_mLoop_error (lnA : ℚ → ℚ) (A B C : ℚ) (k_min k_max : ℤ)
    (e : DecErr)
    (h : mLoop lnA A B C ⟨0, 0, k_min, 0⟩ (intRange k_min k_max) = Except.error e) :
    metrics lnA A B C k_min k_max = Except.error e := by
  unfold metrics
  rw [h]

theorem metrics_ok_eq (lnA : ℚ → ℚ) (A B C : ℚ) (k_min k_max : ℤ)
    (h1 : 1 ≤ k_min) (h2 : k_min ≤ k_max) (h3 : k_max ≤ 29)
    (hln : ∀ k, k_min ≤ k → k ≤ k_max → lnA ((10 : ℚ) ^ k) ≠ 0) :
    metrics lnA A B C k_min k_max =
      Except.ok
        (((intRange k_min k_max).map (absRel lnA A B C)).sum /
            ((intRange k_min k_max).length : ℚ),
          (maxLoop (absRel lnA A B C) (intRange k_min k_max) (0, k_min)).1,
          (maxLoop (absRel lnA A B C) (intRange k_min k_max) (0, k_min)).2) := by
  have hall : ∀ k ∈ intRange k_min k_max, 1 ≤ k ∧ k ≤ 29 ∧ lnA ((10 : ℚ) ^ k) ≠ 0 := by
    intro k hk
    obtain ⟨ha, hb⟩ := mem_intRange.mp hk
    exact ⟨by omega, by omega, hln k ha hb⟩
  have hrun := mLoop_ok lnA A B C (intRange k_min k_max) ⟨0, 0, k_min, 0⟩ hall
  rw [metrics_eq_of_mLoop_ok lnA A B C k_min k_max _ hrun]
  have hn : ((intRange k_min k_max).foldl (mStepP (absRel lnA A B C)) ⟨0, 0, k_min, 0⟩).n =
      ((intRange k_min k_max).length : ℚ) := by
    rw [foldl_mStepP_n]
    show (0 : ℚ) + _ = _
    ring
  have hlenpos : 0 < (intRange k_min k_max).length :=
    List.length_pos_of_mem (mem_intRange.mpr ⟨le_refl k_min, h2⟩)
  have hnne : ((intRange k_min k_max).foldl (mStepP (absRel lnA A B C)) ⟨0, 0, k_min, 0⟩).n ≠ 0 := by
    rw [hn]
    exact Nat.cast_ne_zero.mpr (by omega)
  rw [if_neg hnne]
  have hs : ((intRange k_min k_max).foldl (mStepP (absRel lnA A B C)) ⟨0, 0, k_min, 0⟩).s =
      ((intRange k_min k_max).map (absRel lnA A B C)).sum := by
    rw [foldl_mStepP_s]
    show (0 : ℚ) + _ = _
    ring
  have hmax := foldl_mStepP_max (absRel lnA A B C) (intRange k_min k_max) ⟨0, 0, k_min, 0⟩
  have hm1 : ((intRange k_min k_max).foldl (mStepP (absRel lnA A B C)) ⟨0, 0, k_min, 0⟩).max_abs =
      (maxLoop (absRel lnA A B C) (intRange k_min k_max) (0, k_min)).1 := by
    rw [← hmax]
  have hm2 : ((intRange k_min k_max).foldl (mStepP (absRel lnA A B C)) ⟨0, 0, k_min, 0⟩).k_of_max =
      (maxLoop (absRel lnA A B C) (intRange k_min k_max) (0, k_min)).2 := by
    rw [← hmax]
  rw [hs, hn, hm1, hm2]

/-! ## The error paths of `metrics` -/

theorem mStep_indexError (lnA : ℚ → ℚ) (A B C : ℚ) (st : MState) (k : ℤ)
    (hk : 30 ≤ k) :
    mStep lnA A B C st k = Except.error DecErr.indexError := by
  unfold mStep
  rw [pyIdx_none_of_ge k hk]

theorem mLoop_error_of_bad (lnA : ℚ → ℚ) (A B C : ℚ) :
    ∀ (l : List ℤ) (st : MState) (k : ℤ), k ∈ l → 30 ≤ k →
      ∃ e, mLoop lnA A B C st l = Except.error e := by
  intro l
  induction l with
  | nil =>
    intro st k hk
    exact absurd hk (List.not_mem_nil k)
  | cons j js ih =>
    intro st k hk h30
    cases hstep : mStep lnA A B C st j with
    | error e =>
      refine ⟨e, ?_⟩
      simp only [mLoop, hstep]
    | ok st1 =>
      rcases List.mem_cons.mp hk with rfl | hk1
      · rw [mStep_indexError lnA A B C st k h30] at hstep
        exact absurd hstep (by intro hc; cases hc)
      · obtain ⟨e, he⟩ := ih st1 k hk1 h30
        refine ⟨e, ?_⟩
        simp only [mLoop, hstep, he]

theorem mLoop_append (lnA : ℚ → ℚ) (A B C : ℚ) :
    ∀ (l1 l2 : List ℤ) (st : MState),
      mLoop lnA A B C st (l1 ++ l2) =
        match mLoop lnA A B C st l1 with
        | Except.error e => Except.error e
        | Except.ok st1 => mLoop lnA A B C st1 l2 := by
  intro l1
  induction l1 with
  | nil => intro l2 st; rfl
  | cons k ks ih =>
    intro l2 st
    simp only [List.cons_append, mLoop]
    cases mStep lnA A B C st k with
    | error e => rfl
    | ok st1 => exact ih l2 st1

/-! ## The claims about `metrics` -/

/-- Claim C4 (amended): for `1 ≤ k_min ≤ k_max ≤ 29` (every exponent in range
has a nonzero reference entry; `k = 0` would make the relative error `0/0` and
raise) and a log provider nonzero on the range, `metrics` iterates over every
`k` in `[k_min, k_max]` and returns the mean of the `|rel_pct|` values as its
first component and their maximum as its second component. -/
theorem metrics_mean_max (lnA : ℚ → ℚ) (A B C : ℚ) (k_min k_max : ℤ)
    (h1 : 1 ≤ k_min) (h2 : k_min ≤ k_max) (h3 : k_max ≤ 29)
    (hln : ∀ k, k_min ≤ k → k ≤ k_max → lnA ((10 : ℚ) ^ k) ≠ 0) :
    ∃ kM : ℤ,
      metrics lnA A B C k_min k_max =
        Except.ok
          (((intRange k_min k_max).map (absRel lnA A B C)).sum /
              ((intRange k_min k_max).length : ℚ),
            ((intRange k_min k_max).map (absRel lnA A B C)).foldl max 0,
            kM) ∧
      (∀ k, k_min ≤ k → k ≤ k_max →
        absRel lnA A B C k ≤
          ((intRange k_min k_max).map (absRel lnA A B C)).foldl max 0) ∧
      (∃ k0, (k_min ≤ k0 ∧ k0 ≤ k_max) ∧
        absRel lnA A B C k0 =
          ((intRange k_min k_max).map (absRel lnA A B C)).foldl max 0) := by
  refine ⟨(maxLoop (absRel lnA A B C) (intRange k_min k_max) (0, k_min)).2, ?_, ?_, ?_⟩
  · rw [metrics_ok_eq lnA A B C k_min k_max h1 h2 h3 hln, maxLoop_fst]
  · intro k hka hkb
    have hmem : absRel lnA A B C k ∈ (intRange k_min k_max).map (absRel lnA A B C) :=
      List.mem_map_of_mem _ (mem_intRange.mpr ⟨hka, hkb⟩)
    exact (le_foldl_max _ 0).2 _ hmem
  · rcases maxLoop_snd_spec (absRel lnA A B C) (intRange k_min k_max) 0 k_min
        (pairwise_intRange _ _) with ⟨_, hb, hc⟩ | ⟨ha, hb, _, _⟩
    · refine ⟨k_min, ⟨le_refl _, h2⟩, ?_⟩
      rw [← maxLoop_fst, hb]
      have hle := hc k_min (mem_intRange.mpr ⟨le_refl _, h2⟩)
      exact le_antisymm hle (abs_nonneg _)
    · refine ⟨(maxLoop (absRel lnA A B C) (intRange k_min k_max) (0, k_min)).2,
        mem_intRange.mp ha, ?_⟩
      rw [← maxLoop_fst]
      exact hb

/-- Witness for C4 (amended) at `k_min = 3`, `k_max = 5`. -/
theorem metrics_mean_max_witness :
    ∃ kM : ℤ,
      metrics lnOne 0 0 0 3 5 =
        Except.ok
          (((intRange 3 5).map (absRel lnOne 0 0 0)).sum / ((intRange 3 5).length : ℚ),
            ((intRange 3 5).map (absRel lnOne 0 0 0)).foldl max 0,
            kM) ∧
      (∀ k, (3 : ℤ) ≤ k → k ≤ 5 →
        absRel lnOne 0 0 0 k ≤ ((intRange 3 5).map (absRel lnOne 0 0 0)).foldl max 0) ∧
      (∃ k0, ((3 : ℤ) ≤ k0 ∧ k0 ≤ 5) ∧
        absRel lnOne 0 0 0 k0 = ((intRange 3 5).map (absRel lnOne 0 0 0)).foldl max 0) :=
  metrics_mean_max lnOne 0 0 0 3 5 (by norm_num) (by norm_num) (by norm_num)
    (fun _ _ _ => one_ne_zero)

/-- Claim C5: the returned `k_of_max` is the first exponent attaining the
maximum: it attains it, and every earlier exponent in the range is strictly
below the maximum (so an equal later value never displaces it). -/
theorem metrics_k_of_max_first (lnA : ℚ → ℚ) (A B C : ℚ) (k_min k_max : ℤ)
    (h1 : 1 ≤ k_min) (h2 : k_min ≤ k_max) (h3 : k_max ≤ 29)
    (hln : ∀ k, k_min ≤ k → k ≤ k_max → lnA ((10 : ℚ) ^ k) ≠ 0) :
    ∃ m M kM,
      metrics lnA A B C k_min k_max = Except.ok (m, M, kM) ∧
      k_min ≤ kM ∧ kM ≤ k_max ∧
      absRel lnA A B C kM = M ∧
      ∀ k, k_min ≤ k → k < kM → absRel lnA A B C k < M := by
  rcases maxLoop_snd_spec (absRel lnA A B C) (intRange k_min k_max) 0 k_min
      (pairwise_intRange _ _) with ⟨ha, hb, hc⟩ | ⟨ha, hb, _, hd⟩
  · refine ⟨_, _, _, metrics_ok_eq lnA A B C k_min k_max h1 h2 h3 hln, ?_, ?_, ?_, ?_⟩
    · rw [ha]
    · rw [ha]; exact h2
    · rw [ha, hb]
      exact le_antisymm (hc k_min (mem_intRange.mpr ⟨le_refl _, h2⟩)) (abs_nonneg _)
    · intro k hka hkb
      rw [ha] at hkb
      exact absurd hkb (not_lt.mpr hka)
  · obtain ⟨hka1, hka2⟩ := mem_intRange.mp ha
    refine ⟨_, _, _, metrics_ok_eq lnA A B C k_min k_max h1 h2 h3 hln, hka1, hka2, hb, ?_⟩
    intro k hk1 hklt
    have hkmem : k ∈ intRange k_min k_max := mem_intRange.mpr ⟨hk1, by omega⟩
    exact hd k hkmem hklt

/-- Witness for C5 at `k_min = 3`, `k_max = 4`. -/
theorem metrics_k_of_max_first_witness :
    ∃ m M kM,
      metrics lnOne 0 0 0 3 4 = Except.ok (m, M, kM) ∧
      (3 : ℤ) ≤ kM ∧ kM ≤ 4 ∧
      absRel lnOne 0 0 0 kM = M ∧
      ∀ k, (3 : ℤ) ≤ k → k < kM → absRel lnOne 0 0 0 k < M :=
  metrics_k_of_max_first lnOne 0 0 0 3 4 (by norm_num) (by norm_num) (by norm_num)
    (fun _ _ _ => one_ne_zero)

/-- Claim C8 (amended): on a nonempty range avoiding `k = 0`, i.e. for
`1 ≤ k_min ≤ k_max ≤ 29` (and a log provider nonzero on the range, as the
real logarithm is), `metrics` raises nothing and returns a result.  The empty
range and ranges containing `k = 0` do raise (`InvalidOperation`), so the
index error is not the only error condition. -/
theorem metrics_no_other_error (lnA : ℚ → ℚ) (A B C : ℚ) (k_min k_max : ℤ)
    (h1 : 1 ≤ k_min) (h2 : k_min ≤ k_max) (h3 : k_max ≤ 29)
    (hln : ∀ k, k_min ≤ k → k ≤ k_max → lnA ((10 : ℚ) ^ k) ≠ 0) :
    ∃ r, metrics lnA A B C k_min k_max = Except.ok r :=
  ⟨_, metrics_ok_eq lnA A B C k_min k_max h1 h2 h3 hln⟩

/-- Witness for C8 (amended) at the single-point range `[3, 3]`. -/
theorem metrics_no_other_error_witness :
    ∃ r, metrics lnOne 0 0 0 3 3 = Except.ok r :=
  metrics_no_other_error lnOne 0 0 0 3 3 (by norm_num) (by norm_num) (by norm_num)
    (fun _ _ _ => one_ne_zero)

/-- Claim C10: on the default range `[3, 29]` (log provider nonzero there, as
the real logarithm is), `metrics` returns a 3-tuple whose first two components
are non-negative and whose third lies in `[3, 29]`. -/
theorem metrics_default_range (lnA : ℚ → ℚ) (A B C : ℚ)
    (hln : ∀ k, (3 : ℤ) ≤ k → k ≤ 29 → lnA ((10 : ℚ) ^ k) ≠ 0) :
    ∃ m M kM,
      metrics lnA A B C 3 29 = Except.ok (m, M, kM) ∧
      0 ≤ m ∧ 0 ≤ M ∧ (3 : ℤ) ≤ kM ∧ kM ≤ 29 := by
  have hbounds : (3 : ℤ) ≤ (maxLoop (absRel lnA A B C) (intRange 3 29) (0, 3)).2 ∧
      (maxLoop (absRel lnA A B C) (intRange 3 29) (0, 3)).2 ≤ 29 := by
    rcases maxLoop_snd_spec (absRel lnA A B C) (intRange 3 29) 0 3
        (pairwise_intRange _ _) with ⟨ha, _, _⟩ | ⟨ha, _, _, _⟩
    · rw [ha]; exact ⟨by norm_num, by norm_num⟩
    · exact mem_intRange.mp ha
  refine ⟨_, _, _,
    metrics_ok_eq lnA A B C 3 29 (by norm_num) (by norm_num) (by norm_num) hln,
    ?_, ?_, hbounds.1, hbounds.2⟩
  · apply div_nonneg
    · apply List.sum_nonneg
      intro a hamem
      obtain ⟨k, _, rfl⟩ := List.mem_map.mp hamem
      exact abs_nonneg _
    · exact Nat.cast_nonneg _
  · rw [maxLoop_fst]
    exact (le_foldl_max _ 0).1

/-- Witness for C10 with the frozen parameter triple. -/
theorem metrics_default_range_witness :
    ∃ m M kM,
      metrics lnOne A_33 B_33 C_33 3 29 = Except.ok (m, M, kM) ∧
      0 ≤ m ∧ 0 ≤ M ∧ (3 : ℤ) ≤ kM ∧ kM ≤ 29 :=
  metrics_default_range lnOne A_33 B_33 C_33 (fun _ _ _ => one_ne_zero)

/-- Counterexample for C6: with `k_min = 0` and `k_max = 30` (one past the
table bound, `k_min ≤ k_max`), `metrics` raises `InvalidOperation` at `k = 0`
before ever touching the out-of-range index, so the raised error is not an
index/range error. -/
theorem metrics_over_table_not_index :
    metrics lnOne 0 0 0 0 30 = Except.error DecErr.invalidOperation ∧
      DecErr.invalidOperation ≠ DecErr.indexError :=
  ⟨by rfl, by decide⟩

/-- Claim C6 (amended): a call whose range reaches past the last table index
29 never returns a result (the range is never silently truncated), and when
additionally `k_min ≥ 1` (so no earlier exponent raises the `0/0`
invalid-operation first; log provider nonzero where the table is defined, as
the real logarithm is) the raised error is exactly the index error — in
particular for the scenario `k_min = 3`, `k_max = 30`. -/
theorem metrics_over_table (lnA : ℚ → ℚ) (A B C : ℚ) (k_min k_max : ℤ)
    (hlo : k_min ≤ k_max) (hhi : 30 ≤ k_max) :
    (∃ e, metrics lnA A B C k_min k_max = Except.error e) ∧
    (1 ≤ k_min → (∀ k, k_min ≤ k → k ≤ 29 → lnA ((10 : ℚ) ^ k) ≠ 0) →
      metrics lnA A B C k_min k_max = Except.error DecErr.indexError) := by
  constructor
  · have hk0mem : max k_min 30 ∈ intRange k_min k_max :=
      mem_intRange.mpr ⟨le_max_left _ _, max_le hlo hhi⟩
    obtain ⟨e, he⟩ := mLoop_error_of_bad lnA A B C (intRange k_min k_max)
      ⟨0, 0, k_min, 0⟩ (max k_min 30) hk0mem (le_max_right _ _)
    exact ⟨e, metrics_eq_of_mLoop_error lnA A B C k_min k_max e he⟩
  · intro hk1 hln
    by_cases hsmall : k_min ≤ 30
    · have hsplit : intRange k_min k_max = intRange k_min 29 ++ intRange 30 k_max :=
        intRange_split k_min 29 k_max (by omega) (by omega)
      have hall : ∀ k ∈ intRange k_min 29, 1 ≤ k ∧ k ≤ 29 ∧ lnA ((10 : ℚ) ^ k) ≠ 0 := by
        intro k hk
        obtain ⟨ha, hb⟩ := mem_intRange.mp hk
        exact ⟨by omega, hb, hln k ha hb⟩
      have hrun := mLoop_ok lnA A B C (intRange k_min 29) ⟨0, 0, k_min, 0⟩ hall
      have hcons : intRange 30 k_max = 30 :: intRange 31 k_max :=
        intRange_cons 30 k_max (by omega)
      have hstep := mStep_indexError lnA A B C
        ((intRange k_min 29).foldl (mStepP (absRel lnA A B C)) ⟨0, 0, k_min, 0⟩) 30
        (by norm_num)
      have herr : mLoop lnA A B C ⟨0, 0, k_min, 0⟩ (intRange k_min k_max) =
          Except.error DecErr.indexError := by
        rw [hsplit, mLoop_append, hrun, hcons]
        simp only [mLoop, hstep]
      exact metrics_eq_of_mLoop_error lnA A B C k_min k_max _ herr
    · have hcons : intRange k_min k_max = k_min :: intRange (k_min + 1) k_max :=
        intRange_cons _ _ hlo
      have hstep := mStep_indexError lnA A B C ⟨0, 0, k_min, 0⟩ k_min (by omega)
      have herr : mLoop lnA A B C ⟨0, 0, k_min, 0⟩ (intRange k_min k_max) =
          Except.error DecErr.indexError := by
        rw [hcons]
        simp only [mLoop, hstep]
      exact metrics_eq_of_mLoop_error lnA A B C k_min k_max _ herr

/-- Witness for C6 at `k_min = 3`, `k_max = 30` (one past the table bound). -/
theorem metrics_over_table_witness :
    metrics lnOne 0 0 0 3 30 = Except.error DecErr.indexError :=
  (metrics_over_table lnOne 0 0 0 3 30 (by norm_num) (by norm_num)).2
    (by norm_num) (fun _ _ _ => one_ne_zero)
